import Mathlib

/- Shallow embedding of the notes-cli streaming transcription pipeline
   (src/transcriber/transcriber.cpp, src/transcriber/transcriber.h,
   src/main_fixed.cpp).

   Modelling conventions:
   * C++ float arithmetic is modeled as exact rational arithmetic.
   * `std::istringstream >> word` tokenization is modeled by splitting on the
     C-locale whitespace characters.
   * the whisper engine invocation is abstracted by its outcome: `none`
     models a non-zero return from whisper_full_with_state (failure), and
     `some segs` models success with the given list of segment texts.
   * audio sample buffers are lists of rationals. -/

/-! ## Word tokenization (istringstream >> word) -/

/-- C-locale isspace characters skipped by `operator>>` on an istringstream. -/
def isSpaceChar (c : Char) : Bool :=
  (c == ' ') || (c == '\t') || (c == '\n') || (c == '\r') ||
  (c == Char.ofNat 11) || (c == Char.ofNat 12)

/-- Accumulating word splitter over a character list; `cur` holds the
current (reversed) partial word. -/
def wordsAux : List Char → List Char → List (List Char)
  | [], cur => if cur = [] then [] else [cur.reverse]
  | c :: rest, cur =>
    if isSpaceChar c then
      (if cur = [] then wordsAux rest [] else cur.reverse :: wordsAux rest [])
    else
      wordsAux rest (c :: cur)

/-- `while (iss >> word) words.push_back(word)` on a string. -/
def splitWords (s : String) : List String :=
  (wordsAux s.toList []).map String.mk

/-- The word-joining loop used throughout the source:
`if (!out.empty()) out += " "; out += word;` (all joined words are nonempty
in every call site, so separators are exactly single spaces). -/
def joinWords : List String → String
  | [] => ""
  | [w] => w
  | w :: ws => w ++ " " ++ joinWords ws

/-! ## Segment text cleanup (transcribeChunk / transcribeWithContext) -/

/-- The whitespace set used by the segment trimming code
(`find_first_not_of(" \t\n\r")`). -/
def isTrimChar (c : Char) : Bool :=
  (c == ' ') || (c == '\t') || (c == '\n') || (c == '\r')

/-- Erase leading and trailing `" \t\n\r"` from a segment text. -/
def trimWS (s : String) : String :=
  String.mk (((s.toList.dropWhile isTrimChar).reverse.dropWhile isTrimChar).reverse)

/-- Segment concatenation loop: each segment is trimmed, empty segments are
skipped, surviving segments are joined with single spaces. -/
def joinSegments (segs : List String) : String :=
  segs.foldl
    (fun acc s =>
      let t := trimWS s
      if t = "" then acc else if acc = "" then t else acc ++ " " ++ t)
    ""

/-! ## Configuration and data model (transcriber.h) -/

/-- The fields of TranscriptionConfig consumed by the modeled core
(model path, language, thread count etc. only parameterize the external
engine and are omitted).  Defaults are those of transcriber.h. -/
structure TranscriptionConfig where
  translate : Bool := false
  temperature : ℚ := 0
  max_tokens : ℕ := 224
  enable_vad : Bool := true
  vad_threshold : ℚ := 3/5
  chunk_duration_ms : ℕ := 3000
  overlap_ms : ℕ := 500
  timestamps : Bool := true
  min_chunk_duration_ms : ℕ := 5000
  max_chunk_duration_ms : ℕ := 30000
  optimal_chunk_duration_ms : ℕ := 10000
  silence_threshold : ℚ := 1/50
  min_silence_duration_ms : ℕ := 300
  enable_smart_chunking : Bool := true
  enable_context : Bool := true
  context_duration_ms : ℕ := 2000
  max_prompt_tokens : ℕ := 200
  remove_context_overlap : Bool := true
deriving DecidableEq

structure TranscriptionResult where
  text : String
  timestamp : ℚ
  confidence : ℚ
  is_partial : Bool
deriving DecidableEq

structure ContextWindow where
  previous_text : String
  previous_audio : List ℚ
  timestamp : ℚ
  word_count : ℕ
deriving DecidableEq

structure AudioChunk where
  audio : List ℚ
  timestamp : ℚ
  is_final : Bool
deriving DecidableEq

def SAMPLE_RATE : ℕ := 16000

def MAX_QUEUE_SIZE : ℕ := 10

/-! ## SmartChunker (transcriber.cpp lines 360-432) -/

/-- Buffer and speech clock of a SmartChunker. -/
structure ChunkerState where
  buffer : List ℚ
  last_speech_time : ℚ
deriving DecidableEq

/-- `samples_per_ms = SAMPLE_RATE / 1000`. -/
def samplesPerMs : ℕ := SAMPLE_RATE / 1000

def minSamples (cfg : TranscriptionConfig) : ℕ :=
  cfg.min_chunk_duration_ms * samplesPerMs

def maxSamples (cfg : TranscriptionConfig) : ℕ :=
  cfg.max_chunk_duration_ms * samplesPerMs

def optimalSamples (cfg : TranscriptionConfig) : ℕ :=
  cfg.optimal_chunk_duration_ms * samplesPerMs

def silenceSamples (cfg : TranscriptionConfig) : ℕ :=
  cfg.min_silence_duration_ms * samplesPerMs

/-- SmartChunker::isSilentWindow: every sample in `[start, start+len)` that
lies inside the buffer has absolute amplitude at most silence_threshold
(the loop breaks at the buffer end, treating missing samples as silent). -/
def SmartChunker.isSilentWindow (cfg : TranscriptionConfig) (audio : List ℚ)
    (start len : ℕ) : Bool :=
  (List.range len).all fun j =>
    if start + j < audio.length then
      decide (|audio.getD (start + j) 0| ≤ cfg.silence_threshold)
    else
      true

/-- SmartChunker::extractChunk: emit the first `samples` samples of the
buffer, retain a 2-second tail of the extracted region (or clear the buffer
when the chunk is no longer than the overlap), and advance the speech clock
by `(samples - overlap) / SAMPLE_RATE` (a signed quantity). -/
def SmartChunker.extractChunk (st : ChunkerState) (samples : ℕ) :
    AudioChunk × ChunkerState :=
  let overlap_samples : ℕ := 2 * SAMPLE_RATE
  let chunk : AudioChunk :=
    { audio := st.buffer.take samples, timestamp := st.last_speech_time, is_final := false }
  let buffer2 : List ℚ :=
    if overlap_samples < samples then st.buffer.drop (samples - overlap_samples) else []
  let t2 : ℚ :=
    st.last_speech_time + ((samples : ℚ) - (overlap_samples : ℚ)) / (SAMPLE_RATE : ℚ)
  (chunk, { buffer := buffer2, last_speech_time := t2 })

/-- SmartChunker::processAudio.  The C++ scan condition is
`i < buffer_.size() - silence_samples && i < max_samples` where the left
subtraction is unsigned: when the buffer is shorter than the silence window
it wraps around and the bound degenerates to `i < max_samples`; both cases
are captured by `scanStop`.  The `timestamp` argument is unused by the
source function (the chunk carries the internal speech clock instead). -/
def SmartChunker.processAudio (cfg : TranscriptionConfig) (st : ChunkerState)
    (new_audio : List ℚ) (_timestamp : ℚ) : ChunkerState × Option AudioChunk :=
  let buffer := st.buffer ++ new_audio
  let st1 : ChunkerState := { st with buffer := buffer }
  if buffer.length < minSamples cfg then
    (st1, none)
  else
    let scanStop : ℕ :=
      if silenceSamples cfg ≤ buffer.length then
        min (buffer.length - silenceSamples cfg) (maxSamples cfg)
      else
        maxSamples cfg
    let found : Option ℕ :=
      if optimalSamples cfg ≤ buffer.length then
        (List.range' (optimalSamples cfg) (scanStop - optimalSamples cfg)).find?
          (fun i => SmartChunker.isSilentWindow cfg buffer i (silenceSamples cfg))
      else
        none
    match found with
    | some i =>
      let r := SmartChunker.extractChunk st1 (i + silenceSamples cfg / 2)
      (r.2, some r.1)
    | none =>
      if maxSamples cfg ≤ buffer.length then
        let r := SmartChunker.extractChunk st1 (maxSamples cfg)
        (r.2, some r.1)
      else
        (st1, none)

/-! ## VoiceActivityDetector (transcriber.cpp lines 299-358) -/

structure VADState where
  background_energy : ℚ
  frame_count : ℕ
deriving DecidableEq

/-- VoiceActivityDetector::updateBackgroundEnergy.  `energy` is the RMS
energy of the classified window (the square root in calculateEnergy is
abstracted by taking the already-computed energy as input). -/
def VoiceActivityDetector.updateBackgroundEnergy (energy : ℚ) (st : VADState) :
    VADState :=
  let alpha : ℚ := 1/100
  let bg : ℚ :=
    if st.frame_count = 0 then
      energy
    else if energy < st.background_energy * 2 then
      alpha * energy + (1 - alpha) * st.background_energy
    else
      st.background_energy
  { background_energy := bg, frame_count := st.frame_count + 1 }

/-! ## Transcription queue (transcriber.cpp lines 117-135, 162-180) -/

/-- A queued chunk: audio data paired with its timestamp. -/
abbrev QueuedChunk := List ℚ × ℚ

/-- Producer side: `if (audio_queue_.size() < MAX_QUEUE_SIZE) emplace(...)`;
a chunk arriving at a full queue is dropped. -/
def enqueueChunk (q : List QueuedChunk) (c : QueuedChunk) : List QueuedChunk :=
  if q.length < MAX_QUEUE_SIZE then q ++ [c] else q

inductive QueueOp where
  | enq (c : QueuedChunk)
  | deq

/-- Run a sequence of producer/consumer operations from the empty queue;
the consumer pops the front only when the queue is nonempty. -/
def runQueueOps (ops : List QueueOp) : List QueuedChunk :=
  ops.foldl
    (fun q op =>
      match op with
      | QueueOp.enq c => enqueueChunk q c
      | QueueOp.deq => q.drop 1)
    []

/-! ## Context manager (transcriber.cpp lines 434-649) -/

/-- StreamingTranscriber::prepareContextPrompt: keep the last
`max_prompt_tokens / 2` words of the previous text, space-joined. -/
def prepareContextPrompt (max_prompt_tokens : ℕ) (previous_text : String) : String :=
  if previous_text = "" then
    ""
  else
    let words := splitWords previous_text
    let max_words := min (max_prompt_tokens / 2) words.length
    if max_words = 0 then
      ""
    else
      joinWords (words.drop (words.length - max_words))

/-- The overlap-length scan of StreamingTranscriber::removeContextualOverlap:
for i = 1 .. min(min(|prev|,|curr|),10), overwrite the recorded count with i
whenever the last i words of prev equal the first i words of curr. -/
def overlapCount (prev_words curr_words : List String) : ℕ :=
  let max_check := min (min prev_words.length curr_words.length) 10
  ((List.range max_check).map (· + 1)).foldl
    (fun acc i =>
      if prev_words.drop (prev_words.length - i) = curr_words.take i then i else acc)
    0

/-- StreamingTranscriber::removeContextualOverlap (the member read of
`context_.previous_text` is passed explicitly). -/
def removeContextualOverlap (previous_text : String) (result : TranscriptionResult) :
    TranscriptionResult :=
  if previous_text = "" ∨ result.text = "" then
    result
  else
    let prev_words := splitWords previous_text
    let curr_words := splitWords result.text
    let overlap_count := overlapCount prev_words curr_words
    if 0 < overlap_count ∧ overlap_count < curr_words.length then
      { result with text := joinWords (curr_words.drop overlap_count) }
    else
      result

/-- StreamingTranscriber::updateContext. -/
def updateContext (cfg : TranscriptionConfig) (result : TranscriptionResult)
    (audio_data : List ℚ) : ContextWindow :=
  let context_samples := cfg.context_duration_ms * SAMPLE_RATE / 1000
  { previous_text := result.text
    timestamp := result.timestamp
    word_count := (splitWords result.text).length
    previous_audio :=
      if audio_data.length ≤ context_samples then
        audio_data
      else
        audio_data.drop (audio_data.length - context_samples) }

/-! ## Recognition (transcriber.cpp lines 183-297, 435-513)

The whisper call is abstracted by `engineOut : Option (List String)`:
`none` models a non-zero status from whisper_full_with_state, `some segs`
models success with segment texts `segs`. -/

/-- StreamingTranscriber::transcribeChunk. -/
def transcribeChunk (engineOut : Option (List String)) (timestamp : ℚ) :
    TranscriptionResult :=
  match engineOut with
  | none => { text := "", timestamp := timestamp, confidence := 0, is_partial := false }
  | some segs =>
    { text := joinSegments segs
      timestamp := timestamp
      confidence := if 0 < segs.length then 4/5 else 0
      is_partial := false }

/-- StreamingTranscriber::transcribeWithContext (the audio-context
concatenation and the prompt only shape the abstracted engine input). -/
def transcribeWithContext (cfg : TranscriptionConfig) (ctx : ContextWindow)
    (engineOut : Option (List String)) (timestamp : ℚ) : TranscriptionResult :=
  match engineOut with
  | none => { text := "", timestamp := timestamp, confidence := 0, is_partial := false }
  | some segs =>
    let result : TranscriptionResult :=
      { text := joinSegments segs
        timestamp := timestamp
        confidence := if 0 < segs.length then 4/5 else 0
        is_partial := false }
    if cfg.remove_context_overlap ∧ ¬ ctx.previous_text = "" then
      removeContextualOverlap ctx.previous_text result
    else
      result

/-- Mutable per-transcriber state touched by processAudioChunk. -/
structure TranscriberState where
  running_energy_avg : ℚ
  context : ContextWindow
deriving DecidableEq

/-- StreamingTranscriber::detectVoiceActivity for enabled VAD: smooth the
running average with coefficient 0.1 and compare the window energy against
`vad_threshold * running_energy_avg`.  `energy` is the RMS energy of the
chunk (the square root is abstracted by taking the energy as input). -/
def detectVoiceActivity (cfg : TranscriptionConfig) (energy : ℚ) (avg : ℚ) :
    Bool × ℚ :=
  let avg2 := (1/10) * energy + (9/10) * avg
  (decide (cfg.vad_threshold * avg2 < energy), avg2)

/-- StreamingTranscriber::processAudioChunk: VAD gate, recognition with or
without context, context update on non-empty results, and callback
invocation on non-empty results (the emitted `Option` is `some r` exactly
when the result callback is invoked with `r`). -/
def processAudioChunk (cfg : TranscriptionConfig) (engineOut : Option (List String))
    (energy : ℚ) (st : TranscriberState) (audio_data : List ℚ) (timestamp : ℚ) :
    TranscriberState × Option TranscriptionResult :=
  let vadStep : Bool × ℚ :=
    if cfg.enable_vad then
      detectVoiceActivity cfg energy st.running_energy_avg
    else
      (true, st.running_energy_avg)
  if cfg.enable_vad ∧ vadStep.1 = false then
    ({ st with running_energy_avg := vadStep.2 }, none)
  else
    let result :=
      if cfg.enable_context then
        transcribeWithContext cfg st.context engineOut timestamp
      else
        transcribeChunk engineOut timestamp
    let ctx2 :=
      if cfg.enable_context ∧ ¬ result.text = "" then
        updateContext cfg result audio_data
      else
        st.context
    let emitted := if ¬ result.text = "" then some result else none
    ({ running_energy_avg := vadStep.2, context := ctx2 }, emitted)

/-! ## Repetition filter (main_fixed.cpp lines 293-390) -/

/-- ASCII ispunct. -/
def isPunctChar (c : Char) : Bool :=
  let n := c.toNat
  (33 ≤ n && n ≤ 47) || (58 ≤ n && n ≤ 64) || (91 ≤ n && n ≤ 96) || (123 ≤ n && n ≤ 126)

/-- ASCII tolower. -/
def toLowerChar (c : Char) : Char :=
  if 65 ≤ c.toNat ∧ c.toNat ≤ 90 then Char.ofNat (c.toNat + 32) else c

/-- Per-word cleanup in isRepetitiveText: erase punctuation, lowercase. -/
def cleanWord (w : String) : String :=
  String.mk ((w.toList.filter (fun c => !isPunctChar c)).map toLowerChar)

/-- Tokenization of isRepetitiveText: split on whitespace, clean each word,
keep the nonempty ones. -/
def tokenizeWords (text : String) : List String :=
  ((splitWords text).map cleanWord).filter (fun w => ¬ w = "")

/-- The common-word set of isRepetitiveText. -/
def common_words : List String :=
  ["the", "and", "or", "but", "in", "on", "at", "to", "for", "of", "with", "by",
   "a", "an", "is", "are", "was", "were", "be", "been", "have", "has", "had",
   "do", "does", "did", "will", "would", "could", "should", "can", "may", "might",
   "i", "you", "he", "she", "it", "we", "they", "me", "him", "her", "us", "them",
   "this", "that", "these", "those", "here", "there", "where", "when", "why", "how",
   "what", "who", "which", "so", "now", "then", "well", "okay", "ok", "yeah", "yes",
   "no", "not", "just", "like", "know", "think", "see", "look", "get", "go", "come"]

/-- Exact and fuzzy occurrence counts of a pattern of length `len`:
a window is exact when all positions agree, fuzzy when at least 70 percent
agree (`matches >= len * 0.7`, equivalently `7 * len <= 10 * matches`). -/
def patternMatchCounts (words pattern : List String) (len : ℕ) : ℕ × ℕ :=
  (List.range (words.length - len + 1)).foldl
    (fun acc i =>
      let m := ((List.range len).filter
        (fun j => words.getD (i + j) "" = pattern.getD j "")).length
      if m = len then (acc.1 + 1, acc.2)
      else if 7 * len ≤ 10 * m then (acc.1, acc.2 + 1)
      else acc)
    (0, 0)

/-- The adaptive repetition threshold of isRepetitiveText. -/
def repThreshold (total : ℕ) : ℕ :=
  if 50 < total then max 5 (total / 15)
  else if 20 < total then 4
  else 3

/-- The repetition fraction `(exact + fuzzy * 0.5) * len / total`. -/
def repFraction (exact fuzzy len total : ℕ) : ℚ :=
  ((exact : ℚ) + (fuzzy : ℚ) * (1/2)) * (len : ℚ) / (total : ℚ)

/-- RealTimeTranscriptionApp::isRepetitiveText. -/
def isRepetitiveText (text : String) : Bool :=
  if text.length < 10 then
    false
  else
    let words := tokenizeWords text
    if words.length < 4 then
      false
    else
      let total := words.length
      let minLen := max 2 (total / 20)
      let maxLen := min 8 (total / 3)
      (List.range' minLen (maxLen + 1 - minLen)).any fun len =>
        (List.range (total - len + 1)).any fun start =>
          let pattern := (words.drop start).take len
          if pattern.all (fun w => decide (w ∈ common_words)) then
            false
          else
            let counts := patternMatchCounts words pattern len
            (decide (repThreshold total ≤ counts.1)) ||
              ((decide (repThreshold total ≤ counts.1 + counts.2)) &&
                (decide ((2 : ℚ)/5 < repFraction counts.1 counts.2 len total)))

/-- The accept/skip decision of RealTimeTranscriptionApp::onTranscriptionResult:
empty results return early, texts shorter than 3 characters or flagged
repetitive are skipped, everything else is written to console and file. -/
def onTranscriptionAccepts (r : TranscriptionResult) : Bool :=
  if r.text = "" then
    false
  else if r.text.length < 3 || isRepetitiveText r.text then
    false
  else
    true

/-! ## Specification-side definitions

These follow the wording of the specification and are compared against the
source-derived definitions above. -/

/-- Specification wording of the overlap scan: every candidate length i from
1 up to min(10, word counts) is checked, and the value retained is the
matching length found last in the ascending scan. -/
def overlapSpec (prev_words curr_words : List String) : ℕ :=
  let max_check := min (min prev_words.length curr_words.length) 10
  ((((List.range max_check).map (· + 1)).filter
      (fun i => decide (prev_words.drop (prev_words.length - i) = curr_words.take i))).getLast?).getD
    0

/-- Specification wording of a silence break point: a contiguous window of
`min_silence_duration` samples, lying entirely inside the buffer, all of
amplitude within the silence threshold. -/
def fullSilentWindowAt (cfg : TranscriptionConfig) (buffer : List ℚ) (i : ℕ) : Bool :=
  decide (i + silenceSamples cfg ≤ buffer.length) &&
    SmartChunker.isSilentWindow cfg buffer i (silenceSamples cfg)

/-- Character-list form of `joinWords`, used in the tokenization proofs. -/
def charJoin : List (List Char) → List Char
  | [] => []
  | [w] => w
  | w :: ws => w ++ ' ' :: charJoin ws

/-! ## Concrete fixtures used by counterexamples and witnesses -/

/-- A small but well-formed chunker configuration (min 1ms = 16 samples,
max 2ms = 32 samples, optimal 1ms, silence window 1ms = 16 samples). -/
def cfgSmall2 : TranscriptionConfig :=
  { min_chunk_duration_ms := 1, max_chunk_duration_ms := 2,
    optimal_chunk_duration_ms := 1, min_silence_duration_ms := 1,
    silence_threshold := 1/100 }

/-- Like `cfgSmall2` but with max 3ms = 48 samples. -/
def cfgSmall3 : TranscriptionConfig :=
  { min_chunk_duration_ms := 1, max_chunk_duration_ms := 3,
    optimal_chunk_duration_ms := 1, min_silence_duration_ms := 1,
    silence_threshold := 1/100 }

/-- 31 loud samples followed by 17 silent samples (48 samples = 3ms). -/
def inputRamp : List ℚ := List.replicate 31 1 ++ List.replicate 17 0

/-- 16 loud samples followed by 16 silent samples (32 samples = 2ms). -/
def inputEdge : List ℚ := List.replicate 16 1 ++ List.replicate 16 0

/-- A degenerate looping transcription. -/
def repText : String := "hello world hello world hello world hello world"

/-- Default configuration with the VAD gate disabled. -/
def cfgNoVad : TranscriptionConfig := { enable_vad := false }

/-- The context window at pipeline start. -/
def emptyContext : ContextWindow :=
  { previous_text := "", previous_audio := [], timestamp := 0, word_count := 0 }

/-- The transcriber state at pipeline start. -/
def initialState : TranscriberState :=
  { running_energy_avg := 0, context := emptyContext }

/-- A queue filled to capacity. -/
def fullQueue : List QueuedChunk := List.replicate 10 ([], 0)

/-! ## Helper lemmas -/

theorem getLastD_cons {α : Type} (x a : α) (L : List α) :
    ((x :: L).getLast?).getD a = (L.getLast?).getD x := by
  cases L with
  | nil => rfl
  | cons y ys =>
    rw [List.getLast?_cons_cons]
    cases h : (y :: ys).getLast? with
    | none => exact absurd (List.getLast?_eq_none_iff.mp h) (by simp)
    | some b => rfl

/-- A fold that overwrites its accumulator with every element satisfying `p`
computes the last satisfying element of the list (or the initial value). -/
theorem foldl_record_last {α : Type} (p : α → Prop) [DecidablePred p] :
    ∀ (l : List α) (a : α),
      l.foldl (fun acc i => if p i then i else acc) a =
        ((l.filter (fun i => decide (p i))).getLast?).getD a := by
  intro l
  induction l with
  | nil => intro a; rfl
  | cons x xs ih =>
    intro a
    rw [List.foldl_cons, ih, List.filter_cons]
    by_cases h : p x
    · rw [if_pos h, if_pos (by simpa using h), getLastD_cons]
    · rw [if_neg h, if_neg (by simpa using h)]

theorem find?_append_false {α : Type} (p : α → Bool) :
    ∀ (l₁ l₂ : List α), (∀ x ∈ l₁, p x = false) →
      (l₁ ++ l₂).find? p = l₂.find? p := by
  intro l₁
  induction l₁ with
  | nil => intro l₂ _; rfl
  | cons x xs ih =>
    intro l₂ h
    rw [List.cons_append, List.find?_cons_of_neg]
    · exact ih l₂ fun y hy => h y (List.mem_cons_of_mem _ hy)
    · simp [h x (List.mem_cons_self _ _)]

theorem range'_split (a i n : ℕ) (h1 : a ≤ i) (h2 : i ≤ a + n) :
    List.range' a n = List.range' a (i - a) ++ List.range' i (n - (i - a)) := by
  have h3 : a + 1 * (i - a) = i := by omega
  have h4 : (n - (i - a)) + (i - a) = n := by omega
  have h5 := List.range'_append a (i - a) (n - (i - a)) 1
  rw [h3, h4] at h5
  exact h5.symm

theorem mem_of_getLast?_eq_some {α : Type} {l : List α} {c : α}
    (h : l.getLast? = some c) : c ∈ l := by
  cases l with
  | nil => simp at h
  | cons y ys =>
    rw [List.getLast?_eq_getLast (y :: ys) (by simp)] at h
    injection h with h
    rw [← h]
    exact List.getLast_mem _

/-! ### Word splitter lemmas -/

theorem wordsAux_no_space (w : List Char) :
    ∀ (cs cur : List Char), (∀ c ∈ w, isSpaceChar c = false) →
      wordsAux (w ++ cs) cur = wordsAux cs (w.reverse ++ cur) := by
  induction w with
  | nil => intro cs cur _; simp
  | cons c w ih =>
    intro cs cur h
    have hc : isSpaceChar c = false := h c (List.mem_cons_self _ _)
    rw [List.cons_append]
    show wordsAux (c :: (w ++ cs)) cur = _
    simp only [wordsAux, hc]
    rw [ih cs (c :: cur) fun d hd => h d (List.mem_cons_of_mem _ hd)]
    simp

theorem wordsAux_charJoin : ∀ (ws : List (List Char)),
    (∀ w ∈ ws, w ≠ [] ∧ ∀ c ∈ w, isSpaceChar c = false) →
    wordsAux (charJoin ws) [] = ws := by
  intro ws
  induction ws with
  | nil => intro _; rfl
  | cons w ws ih =>
    intro h
    obtain ⟨hw, hwc⟩ := h w (List.mem_cons_self _ _)
    cases ws with
    | nil =>
      show wordsAux (charJoin [w]) [] = [w]
      have hd : charJoin [w] = w := rfl
      have he := wordsAux_no_space w [] [] hwc
      rw [List.append_nil] at he
      rw [hd, he]
      simp only [wordsAux, List.append_nil]
      rw [if_neg (by simpa [List.reverse_eq_nil_iff] using hw)]
      simp
    | cons w2 ws2 =>
      show wordsAux (charJoin (w :: w2 :: ws2)) [] = w :: w2 :: ws2
      have hd : charJoin (w :: w2 :: ws2) = w ++ ' ' :: charJoin (w2 :: ws2) := rfl
      rw [hd, wordsAux_no_space w _ [] hwc, List.append_nil]
      show wordsAux (' ' :: charJoin (w2 :: ws2)) w.reverse = _
      have hsp : isSpaceChar ' ' = true := rfl
      simp only [wordsAux, hsp, if_true]
      rw [if_neg (by simpa [List.reverse_eq_nil_iff] using hw), List.reverse_reverse]
      rw [ih fun w' hw' => h w' (List.mem_cons_of_mem _ hw')]

theorem wordsAux_sound : ∀ (cs cur : List Char),
    (∀ c ∈ cur, isSpaceChar c = false) →
    ∀ w ∈ wordsAux cs cur, w ≠ [] ∧ ∀ c ∈ w, isSpaceChar c = false := by
  intro cs
  induction cs with
  | nil =>
    intro cur h w hw
    by_cases hc : cur = []
    · simp [wordsAux, hc] at hw
    · simp only [wordsAux, if_neg hc] at hw
      rcases List.mem_singleton.mp hw with rfl
      refine ⟨by simpa [List.reverse_eq_nil_iff] using hc, fun c hcm => h c ?_⟩
      exact List.mem_reverse.mp hcm
  | cons c cs ih =>
    intro cur h w hw
    simp only [wordsAux] at hw
    by_cases hsp : isSpaceChar c = true
    · rw [if_pos hsp] at hw
      by_cases hc : cur = []
      · rw [if_pos hc] at hw
        exact ih [] (by simp) w hw
      · rw [if_neg hc] at hw
        rcases List.mem_cons.mp hw with h1 | h2
        · subst h1
          refine ⟨by simpa [List.reverse_eq_nil_iff] using hc, fun d hd => h d ?_⟩
          exact List.mem_reverse.mp hd
        · exact ih [] (by simp) w h2
    · rw [if_neg hsp] at hw
      refine ih (c :: cur) ?_ w hw
      intro d hd
      rcases List.mem_cons.mp hd with rfl | hd2
      · simpa using hsp
      · exact h d hd2

theorem splitWords_sound (s : String) :
    ∀ w ∈ splitWords s, ¬ w = "" ∧ ∀ c ∈ w.toList, isSpaceChar c = false := by
  intro w hw
  unfold splitWords at hw
  rcases List.mem_map.mp hw with ⟨l, hl, rfl⟩
  obtain ⟨h1, h2⟩ := wordsAux_sound s.toList [] (by simp) l hl
  refine ⟨fun he => h1 ?_, fun c hc => h2 c hc⟩
  simpa [String.ext_iff] using he

theorem joinWords_toList : ∀ ws : List String,
    (joinWords ws).toList = charJoin (ws.map String.toList) := by
  intro ws
  induction ws with
  | nil => rfl
  | cons w ws ih =>
    cases ws with
    | nil => rfl
    | cons w2 ws2 =>
      show (w ++ " " ++ joinWords (w2 :: ws2)).data = w.data ++ ' ' :: charJoin ((w2 :: ws2).map String.toList)
      rw [String.data_append, String.data_append, ← ih]
      show w.data ++ " ".data ++ (joinWords (w2 :: ws2)).data = w.data ++ ' ' :: (joinWords (w2 :: ws2)).data
      rw [List.append_assoc]
      rfl

theorem splitWords_joinWords (ws : List String)
    (h : ∀ w ∈ ws, ¬ w = "" ∧ ∀ c ∈ w.toList, isSpaceChar c = false) :
    splitWords (joinWords ws) = ws := by
  unfold splitWords
  rw [joinWords_toList, wordsAux_charJoin]
  · rw [List.map_map]
    have he : String.mk ∘ String.toList = id := funext fun _ => rfl
    rw [he, List.map_id]
  · intro l hl
    rcases List.mem_map.mp hl with ⟨w, hwmem, rfl⟩
    obtain ⟨h1, h2⟩ := h w hwmem
    exact ⟨fun he => h1 (by simpa [String.ext_iff] using he), h2⟩

theorem joinWords_ne_empty : ∀ ws : List String, ws ≠ [] → (∀ w ∈ ws, ¬ w = "") →
    ¬ joinWords ws = "" := by
  intro ws hne h
  cases ws with
  | nil => exact absurd rfl hne
  | cons w ws =>
    cases ws with
    | nil => exact h w (List.mem_cons_self _ _)
    | cons w2 ws2 =>
      intro he
      have hd0 := congrArg String.data he
      have hd : (w ++ " " ++ joinWords (w2 :: ws2)).data = ([] : List Char) := hd0
      rw [String.data_append, String.data_append] at hd
      have : (' ' : Char) ∈ ([] : List Char) := by
        rw [← hd]
        exact List.mem_append_left _ (List.mem_append_right _ (by simp [String.data]))
      simp at this

theorem joinWords_head : ∀ ws : List String,
    (∀ w ∈ ws, ¬ w = "" ∧ ∀ c ∈ w.toList, isSpaceChar c = false) →
    ∀ c, (joinWords ws).toList.head? = some c → isSpaceChar c = false := by
  intro ws h c hc
  cases ws with
  | nil => simp [joinWords, String.toList] at hc
  | cons w ws =>
    obtain ⟨hw, hwc⟩ := h w (List.mem_cons_self _ _)
    have hwl : w.toList ≠ [] := fun he => hw (by simpa [String.ext_iff] using he)
    cases ws with
    | nil =>
      exact hwc c (List.mem_of_mem_head? (by simpa using hc))
    | cons w2 ws2 =>
      have hd : (joinWords (w :: w2 :: ws2)).toList =
          w.toList ++ (" " ++ joinWords (w2 :: ws2)).toList := by
        show (w ++ " " ++ joinWords (w2 :: ws2)).data = w.data ++ (" " ++ joinWords (w2 :: ws2)).data
        rw [String.data_append, String.data_append, String.data_append, List.append_assoc]
      rw [hd, List.head?_append] at hc
      cases hwt : w.toList with
      | nil => exact absurd hwt hwl
      | cons c0 t =>
        rw [hwt] at hc
        simp only [List.head?_cons, Option.or_some] at hc
        injection hc with hc
        subst hc
        exact hwc c0 (by rw [hwt]; exact List.mem_cons_self _ _)

theorem joinWords_last : ∀ ws : List String,
    (∀ w ∈ ws, ¬ w = "" ∧ ∀ c ∈ w.toList, isSpaceChar c = false) →
    ∀ c, (joinWords ws).toList.getLast? = some c → isSpaceChar c = false := by
  intro ws
  induction ws with
  | nil => intro _ c hc; simp [joinWords, String.toList] at hc
  | cons w ws ih =>
    intro h c hc
    obtain ⟨hw, hwc⟩ := h w (List.mem_cons_self _ _)
    cases ws with
    | nil =>
      exact hwc c (mem_of_getLast?_eq_some hc)
    | cons w2 ws2 =>
      have hrest : ¬ joinWords (w2 :: ws2) = "" :=
        joinWords_ne_empty _ (by simp) fun w' hw' => (h w' (List.mem_cons_of_mem _ hw')).1
      have hrl : (joinWords (w2 :: ws2)).toList ≠ [] :=
        fun he => hrest (by simpa [String.ext_iff] using he)
      have hd : (joinWords (w :: w2 :: ws2)).toList =
          (w ++ " ").toList ++ (joinWords (w2 :: ws2)).toList := by
        show (w ++ " " ++ joinWords (w2 :: ws2)).data = (w ++ " ").data ++ (joinWords (w2 :: ws2)).data
        rw [String.data_append]
      rw [hd, List.getLast?_append] at hc
      cases hg : (joinWords (w2 :: ws2)).toList.getLast? with
      | none => exact absurd (List.getLast?_eq_none_iff.mp hg) hrl
      | some b =>
        rw [hg, Option.or_some] at hc
        injection hc with hc
        subst hc
        exact ih (fun w' hw' => h w' (List.mem_cons_of_mem _ hw')) b hg

/-- The queue-length invariant is preserved by every producer or consumer
step. -/
theorem runQueue_foldl_le (ops : List QueueOp) : ∀ q : List QueuedChunk,
    q.length ≤ MAX_QUEUE_SIZE →
    (ops.foldl
      (fun q op =>
        match op with
        | QueueOp.enq c => enqueueChunk q c
        | QueueOp.deq => q.drop 1)
      q).length ≤ MAX_QUEUE_SIZE := by
  induction ops with
  | nil => intro q h; exact h
  | cons op ops ih =>
    intro q h
    rw [List.foldl_cons]
    apply ih
    cases op with
    | enq c =>
      show (if q.length < MAX_QUEUE_SIZE then q ++ [c] else q).length ≤ MAX_QUEUE_SIZE
      by_cases hlt : q.length < MAX_QUEUE_SIZE
      · rw [if_pos hlt, List.length_append]
        simpa using hlt
      · rw [if_neg hlt]
        exact h
    | deq =>
      show (List.drop 1 q).length ≤ MAX_QUEUE_SIZE
      rw [List.length_drop]
      omega

/-! ## Claim theorems -/

/-- C3: the transcription queue's size never exceeds MAX_QUEUE_SIZE = 10 over
any sequence of producer/consumer operations, and enqueueing a chunk into a
queue already holding 10 chunks leaves the queue unchanged (the newest chunk
is dropped silently; the enqueue operation is a total function of the queue,
with no blocking behavior). -/
theorem C3_queue_bound :
    (∀ ops : List QueueOp, (runQueueOps ops).length ≤ MAX_QUEUE_SIZE) ∧
    (∀ (q : List QueuedChunk) (c : QueuedChunk),
      q.length = MAX_QUEUE_SIZE → enqueueChunk q c = q) := by
  constructor
  · intro ops
    unfold runQueueOps
    exact runQueue_foldl_le ops [] (by simp [MAX_QUEUE_SIZE])
  · intro q c h
    unfold enqueueChunk
    rw [if_neg (by omega)]

/-- Witness for C3_queue_bound at a queue filled to capacity. -/
theorem C3_queue_bound_witness : enqueueChunk fullQueue ([], 0) = fullQueue :=
  C3_queue_bound.2 fullQueue ([], 0) (by decide)

/-- C6: when a single recognition call fails (engine outcome `none`), the
transcription result's text is empty, the pipeline emits nothing for that
chunk (the callback is not invoked), and the context window is left
unchanged, whatever the configuration and state. -/
theorem C6_engine_failure (cfg : TranscriptionConfig) (st : TranscriberState)
    (audio_data : List ℚ) (ts energy : ℚ) :
    (transcribeWithContext cfg st.context none ts).text = "" ∧
    (transcribeChunk none ts).text = "" ∧
    (processAudioChunk cfg none energy st audio_data ts).2 = none ∧
    (processAudioChunk cfg none energy st audio_data ts).1.context = st.context := by
  refine ⟨rfl, rfl, ?_, ?_⟩ <;>
  · simp only [processAudioChunk]
    cases hv : cfg.enable_vad with
    | false =>
      cases hc : cfg.enable_context <;>
        simp [hv, hc, transcribeChunk, transcribeWithContext]
    | true =>
      cases hd : (detectVoiceActivity cfg energy st.running_energy_avg).1 <;>
        cases hc : cfg.enable_context <;>
          simp [hv, hd, hc, transcribeChunk, transcribeWithContext]

unseal Rat.mul Rat.add Rat.sub Rat.inv in
/-- C8 counterexample: on the very first classification call, with background
energy 0 and window energy 1, the energy is not below twice the background
estimate, yet background_energy is still updated (seeded to the energy). -/
theorem C8_counterexample :
    ¬ ((1 : ℚ) < (VADState.mk 0 0).background_energy * 2) ∧
    ¬ (VoiceActivityDetector.updateBackgroundEnergy 1 (VADState.mk 0 0)).background_energy
        = (VADState.mk 0 0).background_energy := by
  decide

/-- C8 (amended): on every frame after the first, background_energy is
updated exactly when the window energy is below twice the current background
estimate, by exponential smoothing with coefficient 1/100, and is left
unchanged otherwise; the very first frame instead seeds background_energy to
the window energy unconditionally.  The frame counter always advances. -/
theorem C8_background_update (st : VADState) (energy : ℚ) :
    (st.frame_count ≠ 0 → ¬ energy < st.background_energy * 2 →
      (VoiceActivityDetector.updateBackgroundEnergy energy st).background_energy
        = st.background_energy) ∧
    (st.frame_count ≠ 0 → energy < st.background_energy * 2 →
      (VoiceActivityDetector.updateBackgroundEnergy energy st).background_energy
        = (1/100) * energy + (1 - 1/100) * st.background_energy) ∧
    (st.frame_count = 0 →
      (VoiceActivityDetector.updateBackgroundEnergy energy st).background_energy = energy) ∧
    (VoiceActivityDetector.updateBackgroundEnergy energy st).frame_count
      = st.frame_count + 1 := by
  unfold VoiceActivityDetector.updateBackgroundEnergy
  refine ⟨?_, ?_, ?_, rfl⟩
  · intro h1 h2
    simp [h1, h2]
  · intro h1 h2
    simp [h1, h2]
  · intro h1
    simp [h1]

unseal Rat.mul Rat.add Rat.sub Rat.inv in
/-- Witness for C8_background_update: a loud window (energy 20, background 5)
on a later frame leaves the background estimate unchanged. -/
theorem C8_background_update_witness :
    (VoiceActivityDetector.updateBackgroundEnergy 20 (VADState.mk 5 1)).background_energy
      = 5 :=
  (C8_background_update (VADState.mk 5 1) 20).1 (by decide) (by decide)

/-- C10: for non-empty previous text and non-empty current result,
removeContextualOverlap returns a result with non-empty text, and when the
detected overlap length equals the current word count the result is returned
unchanged. -/
theorem C10_overlap_nonempty (previous_text : String) (r : TranscriptionResult)
    (hprev : ¬ previous_text = "") (hcur : ¬ r.text = "") :
    ¬ (removeContextualOverlap previous_text r).text = "" ∧
    (overlapCount (splitWords previous_text) (splitWords r.text) = (splitWords r.text).length →
      removeContextualOverlap previous_text r = r) := by
  unfold removeContextualOverlap
  rw [if_neg (by tauto)]
  by_cases hstrip : 0 < overlapCount (splitWords previous_text) (splitWords r.text) ∧
      overlapCount (splitWords previous_text) (splitWords r.text) < (splitWords r.text).length
  · rw [if_pos hstrip]
    constructor
    · show ¬ joinWords ((splitWords r.text).drop
        (overlapCount (splitWords previous_text) (splitWords r.text))) = ""
      apply joinWords_ne_empty
      · intro hnil
        have := List.drop_eq_nil_iff.mp hnil
        omega
      · intro w hw
        exact (splitWords_sound r.text w (List.drop_subset _ _ hw)).1
    · intro heq
      omega
  · rw [if_neg hstrip]
    exact ⟨hcur, fun _ => rfl⟩

/-- Witness for C10_overlap_nonempty: full-overlap input is returned
unchanged with non-empty text. -/
theorem C10_overlap_nonempty_witness :
    ¬ (removeContextualOverlap "a" (TranscriptionResult.mk "a" 0 0 false)).text = "" ∧
    removeContextualOverlap "a" (TranscriptionResult.mk "a" 0 0 false)
      = TranscriptionResult.mk "a" 0 0 false := by
  have h := C10_overlap_nonempty "a" (TranscriptionResult.mk "a" 0 0 false)
    (by decide) (by decide)
  exact ⟨h.1, h.2 (by decide)⟩

/-- C2: the cross-chunk overlap scan checks every candidate length i from 1
up to min(10, word counts of both sides), retains the matching length
recorded last in the ascending scan, and strips that many leading words
exactly when the retained overlap is nonzero and shorter than the full
result; the worked example detects overlap length 3 and yields
"over the lazy dog". -/
theorem C2_overlap_scan :
    (∀ prev_words curr_words : List String,
      overlapCount prev_words curr_words = overlapSpec prev_words curr_words) ∧
    (∀ (previous_text : String) (r : TranscriptionResult),
      ¬ previous_text = "" → ¬ r.text = "" →
      removeContextualOverlap previous_text r =
        (if 0 < overlapSpec (splitWords previous_text) (splitWords r.text) ∧
            overlapSpec (splitWords previous_text) (splitWords r.text)
              < (splitWords r.text).length then
          { r with text := joinWords ((splitWords r.text).drop
              (overlapSpec (splitWords previous_text) (splitWords r.text))) }
        else r)) ∧
    ((removeContextualOverlap "the quick brown fox jumps"
        (TranscriptionResult.mk "brown fox jumps over the lazy dog" 0 0 false)).text
        = "over the lazy dog" ∧
      overlapSpec (splitWords "the quick brown fox jumps")
        (splitWords "brown fox jumps over the lazy dog") = 3) := by
  have hco : ∀ prev_words curr_words : List String,
      overlapCount prev_words curr_words = overlapSpec prev_words curr_words := by
    intro p c
    unfold overlapCount overlapSpec
    exact foldl_record_last (fun i => p.drop (p.length - i) = c.take i) _ 0
  refine ⟨hco, ?_, by decide⟩
  intro pt r h1 h2
  unfold removeContextualOverlap
  rw [if_neg (by tauto)]
  simp only [hco]

/-- Witness for C2_overlap_scan: the worked overlap-removal example, obtained
from the general strip characterization. -/
theorem C2_overlap_scan_witness :
    removeContextualOverlap "the quick brown fox jumps"
      (TranscriptionResult.mk "brown fox jumps over the lazy dog" 0 0 false) =
      TranscriptionResult.mk "over the lazy dog" 0 0 false := by
  have h := C2_overlap_scan.2.1 "the quick brown fox jumps"
    (TranscriptionResult.mk "brown fox jumps over the lazy dog" 0 0 false)
    (by decide) (by decide)
  rw [h]
  decide

/-- Let-free unfolding of prepareContextPrompt. -/
theorem prepareContextPrompt_eq (mpt : ℕ) (prev : String) :
    prepareContextPrompt mpt prev =
      if prev = "" then ""
      else if min (mpt / 2) (splitWords prev).length = 0 then ""
      else joinWords ((splitWords prev).drop
        ((splitWords prev).length - min (mpt / 2) (splitWords prev).length)) := rfl

/-- C5: prepareContextPrompt returns the empty string on empty input and
otherwise truncates the previous text to its last max_prompt_tokens/2 words,
joined by single spaces; the first and last character of any returned prompt
is never whitespace. -/
theorem C5_context_truncation :
    (∀ mpt : ℕ, prepareContextPrompt mpt "" = "") ∧
    (∀ (mpt : ℕ) (ws : List String),
      (∀ w ∈ ws, ¬ w = "" ∧ ∀ c ∈ w.toList, isSpaceChar c = false) →
      prepareContextPrompt mpt (joinWords ws) =
        joinWords (ws.drop (ws.length - min (mpt / 2) ws.length))) ∧
    (∀ (mpt : ℕ) (prev : String) (c : Char),
      (prepareContextPrompt mpt prev).toList.head? = some c → isSpaceChar c = false) ∧
    (∀ (mpt : ℕ) (prev : String) (c : Char),
      (prepareContextPrompt mpt prev).toList.getLast? = some c → isSpaceChar c = false) := by
  refine ⟨fun mpt => rfl, ?_, ?_, ?_⟩
  · intro mpt ws h
    by_cases hws : joinWords ws = ""
    · have hnil : ws = [] := by
        by_contra hne
        exact joinWords_ne_empty ws hne (fun w hw => (h w hw).1) hws
      subst hnil
      simp [prepareContextPrompt, joinWords, List.drop_nil]
    · unfold prepareContextPrompt
      rw [if_neg hws, splitWords_joinWords ws h]
      by_cases hmw : min (mpt / 2) ws.length = 0
      · rw [if_pos hmw, hmw, Nat.sub_zero, List.drop_length]
        rfl
      · rw [if_neg hmw]
  · intro mpt prev c hc
    rw [prepareContextPrompt_eq] at hc
    split at hc
    · simp at hc
    · split at hc
      · simp at hc
      · refine joinWords_head _ ?_ c hc
        intro w hw
        exact splitWords_sound prev w (List.drop_subset _ _ hw)
  · intro mpt prev c hc
    rw [prepareContextPrompt_eq] at hc
    split at hc
    · simp at hc
    · split at hc
      · simp at hc
      · refine joinWords_last _ ?_ c hc
        intro w hw
        exact splitWords_sound prev w (List.drop_subset _ _ hw)

set_option maxRecDepth 40000 in
/-- Witness for C5_context_truncation: a 500-word previous text with
max_prompt_tokens = 200 yields exactly the last 100 words, space-joined. -/
theorem C5_context_truncation_witness :
    prepareContextPrompt 200 (joinWords (List.replicate 500 "a")) =
      joinWords (List.replicate 100 "a") := by
  have h := C5_context_truncation.2.1 200 (List.replicate 500 "a") (by decide)
  rw [h]
  decide

unseal Rat.mul Rat.add Rat.sub Rat.inv in
/-- C9 counterexample: the result callback (modeled by the emitted `some`)
is invoked for a non-empty transcription that the Repetition Filter flags as
repetitive: with VAD disabled and empty context, a degenerate looping engine
output reaches the callback unchanged even though isRepetitiveText flags it,
so the callback is not invoked only for accepted (non-repetitive)
transcriptions. -/
theorem C9_counterexample :
    (processAudioChunk cfgNoVad (some [repText]) 0 initialState [] 0).2 =
        some (TranscriptionResult.mk repText 0 (4/5) false) ∧
    isRepetitiveText repText = true := by
  constructor
  · decide
  · decide

/-- C9 (amended): the result callback is invoked exactly once per non-empty
transcription result (never with empty text) regardless of repetitiveness;
the repetition filter is applied on the consumer side, inside
onTranscriptionResult, which accepts a result exactly when its text is
non-empty, at least 3 characters long, and not flagged repetitive — so every
result passes through the filter before reaching the transcript output, but
after the callback itself. -/
theorem C9_callback_filter :
    (∀ (cfg : TranscriptionConfig) (engineOut : Option (List String)) (energy : ℚ)
        (st : TranscriberState) (audio_data : List ℚ) (ts : ℚ) (r : TranscriptionResult),
      (processAudioChunk cfg engineOut energy st audio_data ts).2 = some r →
        ¬ r.text = "") ∧
    (∀ r : TranscriptionResult,
      onTranscriptionAccepts r = true ↔
        (¬ r.text = "" ∧ 3 ≤ r.text.length ∧ isRepetitiveText r.text = false)) := by
  constructor
  · intro cfg engineOut energy st audio_data ts r hr
    simp only [processAudioChunk] at hr
    cases hvad : cfg.enable_vad with
    | false =>
      rw [if_neg (by simp [hvad])] at hr
      by_cases ht : (if cfg.enable_context = true then
          transcribeWithContext cfg st.context engineOut ts
        else transcribeChunk engineOut ts).text = ""
      · simp [ht] at hr
      · rw [if_pos ht] at hr
        have h2 : some (if cfg.enable_context = true then
            transcribeWithContext cfg st.context engineOut ts
          else transcribeChunk engineOut ts) = some r := hr
        injection h2 with h2
        rw [← h2]
        exact ht
    | true =>
      cases hd : (detectVoiceActivity cfg energy st.running_energy_avg).1 with
      | false =>
        rw [if_pos (by simp [hvad, hd])] at hr
        simp at hr
      | true =>
        rw [if_neg (by simp [hvad, hd])] at hr
        by_cases ht : (if cfg.enable_context = true then
            transcribeWithContext cfg st.context engineOut ts
          else transcribeChunk engineOut ts).text = ""
        · simp [ht] at hr
        · rw [if_pos ht] at hr
          have h2 : some (if cfg.enable_context = true then
              transcribeWithContext cfg st.context engineOut ts
            else transcribeChunk engineOut ts) = some r := hr
          injection h2 with h2
          rw [← h2]
          exact ht
  · intro r
    unfold onTranscriptionAccepts
    by_cases h1 : r.text = ""
    · simp [h1]
    · by_cases h2 : r.text.length < 3
      · simp [h1, h2]
      · by_cases h3 : isRepetitiveText r.text
        · simp [h1, h2, h3]
        · simp [h1, h2, h3]
          omega

unseal Rat.mul Rat.add Rat.sub Rat.inv in
/-- Witness for C9_callback_filter: the emitted looping result has non-empty
text. -/
theorem C9_callback_filter_witness :
    ¬ (TranscriptionResult.mk repText 0 (4/5) false).text = "" :=
  C9_callback_filter.1 cfgNoVad (some [repText]) 0 initialState [] 0
    (TranscriptionResult.mk repText 0 (4/5) false) (by decide)

unseal Rat.mul Rat.add Rat.sub Rat.inv in
/-- C1 counterexample: with a well-formed 1ms/1ms/2ms chunker configuration
(16/16/32 samples) and a 1ms silence window, feeding 31 loud samples followed
by 17 silent ones makes the first silent window start at sample 31 (still
below max_samples = 32), so the cut lands at the middle of the window,
31 + 16/2 = 39 samples — a chunk strictly longer than max_chunk_duration. -/
theorem C1_counterexample :
    Option.map (fun c => c.audio.length)
        (SmartChunker.processAudio cfgSmall2 (ChunkerState.mk [] 0) inputRamp 0).2
      = some 39 ∧
    maxSamples cfgSmall2 < 39 := by
  constructor
  · decide
  · decide

/-- C1 (amended): for a configuration with min_chunk_duration at most both
optimal_chunk_duration and max_chunk_duration, every chunk emitted by
SmartChunker::processAudio has at least min_chunk_duration worth of samples,
and at most max_chunk_duration plus half a min_silence_duration worth: the
silence cut at the middle of a late silence window can overshoot
max_chunk_duration by up to min_silence_duration/2, and only the forced cut
is exactly bounded by max_chunk_duration. -/
theorem C1_chunk_bounds (cfg : TranscriptionConfig) (st : ChunkerState)
    (new_audio : List ℚ) (ts : ℚ) (c : AudioChunk)
    (hmo : cfg.min_chunk_duration_ms ≤ cfg.optimal_chunk_duration_ms)
    (hmm2 : cfg.min_chunk_duration_ms ≤ cfg.max_chunk_duration_ms)
    (hemit : (SmartChunker.processAudio cfg st new_audio ts).2 = some c) :
    minSamples cfg ≤ c.audio.length ∧
      c.audio.length ≤ maxSamples cfg + silenceSamples cfg / 2 := by
  have hms : minSamples cfg ≤ optimalSamples cfg := Nat.mul_le_mul_right _ hmo
  have hmx : minSamples cfg ≤ maxSamples cfg := Nat.mul_le_mul_right _ hmm2
  simp only [SmartChunker.processAudio] at hemit
  by_cases hmin : (st.buffer ++ new_audio).length < minSamples cfg
  · rw [if_pos hmin] at hemit
    simp at hemit
  · rw [if_neg hmin] at hemit
    split at hemit
    · rename_i i hfound
      have hc : some (SmartChunker.extractChunk
          { st with buffer := st.buffer ++ new_audio } (i + silenceSamples cfg / 2)).1
          = some c := hemit
      injection hc with hc
      have hibound : optimalSamples cfg ≤ i ∧ i < maxSamples cfg := by
        by_cases hopt : optimalSamples cfg ≤ (st.buffer ++ new_audio).length
        · rw [if_pos hopt] at hfound
          rcases List.mem_range'_1.mp (List.mem_of_find?_eq_some hfound) with ⟨h1, h2⟩
          refine ⟨h1, ?_⟩
          have hS : (if silenceSamples cfg ≤ (st.buffer ++ new_audio).length then
              min ((st.buffer ++ new_audio).length - silenceSamples cfg) (maxSamples cfg)
            else maxSamples cfg) ≤ maxSamples cfg := by
            split
            · exact min_le_right _ _
            · exact le_refl _
          omega
        · rw [if_neg hopt] at hfound
          simp at hfound
      rw [← hc]
      simp only [SmartChunker.extractChunk, List.length_take]
      omega
    · rename_i hfound
      by_cases hmax : maxSamples cfg ≤ (st.buffer ++ new_audio).length
      · rw [if_pos hmax] at hemit
        have hc : some (SmartChunker.extractChunk
            { st with buffer := st.buffer ++ new_audio } (maxSamples cfg)).1 = some c :=
          hemit
        injection hc with hc
        rw [← hc]
        simp only [SmartChunker.extractChunk, List.length_take]
        omega
      · rw [if_neg hmax] at hemit
        simp at hemit

unseal Rat.mul Rat.add Rat.sub Rat.inv in
/-- Witness for C1_chunk_bounds at the counterexample input: the emitted
39-sample chunk satisfies the amended bounds 16 ≤ 39 ≤ 32 + 8. -/
theorem C1_chunk_bounds_witness :
    minSamples cfgSmall2 ≤
        (AudioChunk.mk (List.replicate 31 (1 : ℚ) ++ List.replicate 8 0) 0 false).audio.length ∧
      (AudioChunk.mk (List.replicate 31 (1 : ℚ) ++ List.replicate 8 0) 0 false).audio.length
        ≤ maxSamples cfgSmall2 + silenceSamples cfgSmall2 / 2 :=
  C1_chunk_bounds cfgSmall2 (ChunkerState.mk [] 0) inputRamp 0
    (AudioChunk.mk (List.replicate 31 (1 : ℚ) ++ List.replicate 8 0) 0 false)
    (by decide) (by decide) (by decide)

unseal Rat.mul Rat.add Rat.sub Rat.inv in
/-- C7 counterexample: with a well-formed 1ms/1ms/3ms chunker configuration
(16/16/48 samples) and a 1ms (16-sample) silence window, on a buffer of 16
loud then 16 silent samples a full silent window starts at sample 16 — a
position at or beyond the optimal offset and strictly below
max_chunk_duration — so the claim requires a cut at its middle, yet
processAudio emits nothing: the scan stops strictly before
buffer_size - silence_samples and never examines the last full window. -/
theorem C7_counterexample :
    fullSilentWindowAt cfgSmall3 inputEdge 16 = true ∧
    optimalSamples cfgSmall3 ≤ 16 ∧ 16 < maxSamples cfgSmall3 ∧
    (SmartChunker.processAudio cfgSmall3 (ChunkerState.mk [] 0) inputEdge 0).2 = none := by
  refine ⟨by decide, by decide, by decide, by decide⟩

/-- C7 (amended): assuming the buffer holds at least one silence window, the
scan examines positions i with optimal_samples ≤ i and
i < min(buffer_len - silence_samples, max_samples) — one position short of
the last full silence window — in ascending order: if none of them hosts a
silent window, a chunk of exactly the first max_samples samples is emitted
precisely when the buffer has reached both min_samples and max_samples (and
nothing is emitted otherwise); if i is the first such position hosting a
silent window (and the buffer has reached min and optimal size), the cut is
at the middle of that window, i + silence_samples/2. -/
theorem C7_silence_scan (cfg : TranscriptionConfig) (st : ChunkerState)
    (new_audio : List ℚ) (ts : ℚ)
    (hsil : silenceSamples cfg ≤ (st.buffer ++ new_audio).length) :
    ((∀ i < min ((st.buffer ++ new_audio).length - silenceSamples cfg) (maxSamples cfg),
        optimalSamples cfg ≤ i →
        SmartChunker.isSilentWindow cfg (st.buffer ++ new_audio) i (silenceSamples cfg)
          = false) →
      (SmartChunker.processAudio cfg st new_audio ts).2 =
        (if minSamples cfg ≤ (st.buffer ++ new_audio).length ∧
            maxSamples cfg ≤ (st.buffer ++ new_audio).length then
          some (AudioChunk.mk ((st.buffer ++ new_audio).take (maxSamples cfg))
            st.last_speech_time false)
        else none)) ∧
    (∀ i < min ((st.buffer ++ new_audio).length - silenceSamples cfg) (maxSamples cfg),
      minSamples cfg ≤ (st.buffer ++ new_audio).length →
      optimalSamples cfg ≤ (st.buffer ++ new_audio).length →
      optimalSamples cfg ≤ i →
      SmartChunker.isSilentWindow cfg (st.buffer ++ new_audio) i (silenceSamples cfg)
        = true →
      (∀ j < i, optimalSamples cfg ≤ j →
        SmartChunker.isSilentWindow cfg (st.buffer ++ new_audio) j (silenceSamples cfg)
          = false) →
      (SmartChunker.processAudio cfg st new_audio ts).2 =
        some (AudioChunk.mk ((st.buffer ++ new_audio).take (i + silenceSamples cfg / 2))
          st.last_speech_time false)) ∧
    (maxSamples cfg ≤ (st.buffer ++ new_audio).length →
      ((st.buffer ++ new_audio).take (maxSamples cfg)).length = maxSamples cfg) := by
  refine ⟨?_, ?_, ?_⟩
  · intro hno
    simp only [SmartChunker.processAudio]
    by_cases hmin : (st.buffer ++ new_audio).length < minSamples cfg
    · rw [if_pos hmin, if_neg (by omega)]
    · rw [if_neg hmin]
      have hfound : (if optimalSamples cfg ≤ (st.buffer ++ new_audio).length then
          (List.range' (optimalSamples cfg)
            ((if silenceSamples cfg ≤ (st.buffer ++ new_audio).length then
                min ((st.buffer ++ new_audio).length - silenceSamples cfg)
                  (maxSamples cfg)
              else maxSamples cfg) - optimalSamples cfg)).find?
            (fun i => SmartChunker.isSilentWindow cfg (st.buffer ++ new_audio) i
              (silenceSamples cfg))
        else none) = none := by
        split
        · rw [List.find?_eq_none]
          intro x hx
          rcases List.mem_range'_1.mp hx with ⟨h1, h2⟩
          simp [hno x (by omega) h1]
        · rfl
      rw [hfound]
      by_cases hmax : maxSamples cfg ≤ (st.buffer ++ new_audio).length
      · rw [if_pos hmax, if_pos (And.intro (by omega) hmax)]
        rfl
      · rw [if_neg hmax, if_neg (by tauto)]
  · intro i hilt hminL hoptL hopti hsilent hnoearlier
    simp only [SmartChunker.processAudio]
    rw [if_neg (by omega)]
    have hfound : (if optimalSamples cfg ≤ (st.buffer ++ new_audio).length then
        (List.range' (optimalSamples cfg)
          ((if silenceSamples cfg ≤ (st.buffer ++ new_audio).length then
              min ((st.buffer ++ new_audio).length - silenceSamples cfg)
                (maxSamples cfg)
            else maxSamples cfg) - optimalSamples cfg)).find?
          (fun i => SmartChunker.isSilentWindow cfg (st.buffer ++ new_audio) i
            (silenceSamples cfg))
      else none) = some i := by
      rw [if_pos hoptL, if_pos hsil]
      rw [range'_split (optimalSamples cfg) i
        (min ((st.buffer ++ new_audio).length - silenceSamples cfg) (maxSamples cfg)
          - optimalSamples cfg) hopti (by omega)]
      rw [find?_append_false _ _ _ ?later]
      case later =>
        intro x hx
        rcases List.mem_range'_1.mp hx with ⟨h1, h2⟩
        exact hnoearlier x (by omega) h1
      have hpos : (min ((st.buffer ++ new_audio).length - silenceSamples cfg)
            (maxSamples cfg) - optimalSamples cfg) - (i - optimalSamples cfg)
          = ((min ((st.buffer ++ new_audio).length - silenceSamples cfg)
            (maxSamples cfg) - optimalSamples cfg) - (i - optimalSamples cfg) - 1) + 1 := by
        omega
      rw [hpos, List.range'_succ]
      exact List.find?_cons_of_pos _ hsilent
    rw [hfound]
    rfl
  · intro hmax
    rw [List.length_take]
    omega

/-- C4: the repetition filter flags a text exactly when some contiguous
pattern with length between max(2, total/20) and min(8, total/3), not
composed entirely of the fixed common-word set, has an exact-match count
reaching the adaptive repetition threshold, or an exact-plus-fuzzy count
reaching the threshold while the repetition fraction
(exact + 0.5 fuzzy)·len/total exceeds 0.4; texts shorter than 10 characters
or with fewer than 4 word tokens are never flagged. -/
theorem C4_repetition_filter (text : String) :
    isRepetitiveText text = true ↔
      (10 ≤ text.length ∧ 4 ≤ (tokenizeWords text).length ∧
        ∃ len start,
          max 2 ((tokenizeWords text).length / 20) ≤ len ∧
          len ≤ min 8 ((tokenizeWords text).length / 3) ∧
          start + len ≤ (tokenizeWords text).length ∧
          ¬ (∀ w ∈ ((tokenizeWords text).drop start).take len, w ∈ common_words) ∧
          (repThreshold (tokenizeWords text).length ≤
              (patternMatchCounts (tokenizeWords text)
                (((tokenizeWords text).drop start).take len) len).1 ∨
            (repThreshold (tokenizeWords text).length ≤
                (patternMatchCounts (tokenizeWords text)
                  (((tokenizeWords text).drop start).take len) len).1 +
                (patternMatchCounts (tokenizeWords text)
                  (((tokenizeWords text).drop start).take len) len).2 ∧
              (2 : ℚ)/5 < repFraction
                (patternMatchCounts (tokenizeWords text)
                  (((tokenizeWords text).drop start).take len) len).1
                (patternMatchCounts (tokenizeWords text)
                  (((tokenizeWords text).drop start).take len) len).2
                len (tokenizeWords text).length))) := by
  simp only [isRepetitiveText]
  by_cases h10 : text.length < 10
  · rw [if_pos h10]
    constructor
    · intro h
      exact absurd h (by simp)
    · rintro ⟨ha, _⟩
      omega
  · rw [if_neg h10]
    by_cases h4 : (tokenizeWords text).length < 4
    · rw [if_pos h4]
      constructor
      · intro h
        exact absurd h (by simp)
      · rintro ⟨_, hb, _⟩
        omega
    · rw [if_neg h4]
      rw [List.any_eq_true]
      constructor
      · rintro ⟨len, hlenmem, hinner⟩
        rw [List.any_eq_true] at hinner
        obtain ⟨start, hstartmem, hbody⟩ := hinner
        rcases List.mem_range'_1.mp hlenmem with ⟨hl1, hl2⟩
        have hstart := List.mem_range.mp hstartmem
        by_cases hcom : (((tokenizeWords text).drop start).take len).all
            (fun w => decide (w ∈ common_words)) = true
        · rw [if_pos hcom] at hbody
          exact absurd hbody (by simp)
        · rw [if_neg hcom] at hbody
          refine ⟨by omega, by omega, len, start, by omega, by omega, by omega, ?_, ?_⟩
          · intro hall
            exact hcom (by simp only [List.all_eq_true, decide_eq_true_eq]; exact hall)
          · simpa using hbody
      · rintro ⟨ha10, ha4, len, start, hminl, hmaxl, hsl, hncom, hdisj⟩
        refine ⟨len, List.mem_range'_1.mpr ⟨hminl, by omega⟩, ?_⟩
        rw [List.any_eq_true]
        refine ⟨start, List.mem_range.mpr (by omega), ?_⟩
        have hcom2 : ¬ ((((tokenizeWords text).drop start).take len).all
            (fun w => decide (w ∈ common_words)) = true) := by
          intro hall
          exact hncom (by simpa using hall)
        rw [if_neg hcom2]
        simpa using hdisj

unseal Rat.mul Rat.add Rat.sub Rat.inv in
/-- Witness for C7_silence_scan: on the ramp input the first silent scan
position is 31, so the emitted chunk is cut at 31 + 16/2 = 39 samples. -/
theorem C7_silence_scan_witness :
    (SmartChunker.processAudio cfgSmall2 (ChunkerState.mk [] 0) inputRamp 0).2 =
      some (AudioChunk.mk (inputRamp.take (31 + silenceSamples cfgSmall2 / 2)) 0 false) :=
  (C7_silence_scan cfgSmall2 (ChunkerState.mk [] 0) inputRamp 0 (by decide)).2.1 31
    (by decide) (by decide) (by decide) (by decide) (by decide) (by decide)
